import Mathlib

/-!
Shallow embedding of `dmarc_rua_dashboard.py` (DMARC RUA dashboard) and
verification of the frozen claims about it.

Modelling conventions:
* Python strings are Lean `String`s; helper functions (`trim`, `lower`,
  substring containment, split at first `@`) are written over the
  underlying character lists so they evaluate inside the kernel.
* `Option String` models an XML `findtext` result (`none` = element
  absent; `some s` = element present with text `s`, where a present but
  textless element yields `some ""`, as `ElementTree.findtext` does).
* Python `int(...)` on a string is modelled by `parseIntPython`:
  optional surrounding whitespace, an optional sign, then ASCII digits.
  (Exotic forms such as underscore separators or non-ASCII digits are
  outside the inputs considered here.)
* A Python value of `None` returned by `detect_provider_and_domain`
  (rendered "no match" downstream) is modelled as `none : Option String`.
* Datetime values are modelled as Unix seconds (`Int`); a pandas `NaT`
  is `none : Option Int`.
-/

namespace Dmarc

/-! ### String helpers (`safe_txt`, `lower_or_empty`, `domain_part`) -/

/-- ASCII whitespace test used to model Python's `str.strip()`. -/
def isSpace (c : Char) : Bool :=
  c = ' ' || c = '\t' || c = '\n' || c = '\r'

/-- Drop whitespace from both ends of a character list. -/
def trimList (cs : List Char) : List Char :=
  ((cs.dropWhile isSpace).reverse.dropWhile isSpace).reverse

/-- Lowercase every character (ASCII, as in the domains handled here). -/
def lowerList (cs : List Char) : List Char :=
  cs.map Char.toLower

/-- `safe_txt(x)`: `(x or "").strip()` applied to a `findtext` result. -/
def safe_txt (x : Option String) : String :=
  ⟨trimList (x.getD "").toList⟩

/-- `lower_or_empty(x)` for a plain string argument: strip then lowercase. -/
def lower_or_empty (x : String) : String :=
  ⟨lowerList (trimList x.toList)⟩

/-- Characters after the first `@`, or the whole list when there is none. -/
def afterFirstAt : List Char → List Char
  | [] => []
  | c :: t => if c = '@' then t else afterFirstAt t

/-- `domain_part(addr_or_domain)`: lowercase/strip, then keep only the part
after the first `@` when one is present (`s.split("@", 1)[-1]`). -/
def domain_part (addr_or_domain : String) : String :=
  if (lower_or_empty addr_or_domain).toList.contains '@' then
    ⟨afterFirstAt (lower_or_empty addr_or_domain).toList⟩
  else lower_or_empty addr_or_domain

/-- Substring containment on character lists: Python `needle in hay`. -/
def subOccurs (needle : List Char) : List Char → Bool
  | [] => needle.isEmpty
  | c :: t => needle.isPrefixOf (c :: t) || subOccurs needle t

/-- Python `needle in hay` for strings. -/
def hasSubstr (hay needle : String) : Bool :=
  subOccurs needle.toList hay.toList

/-! ### Python `int(...)` on strings -/

/-- Value of a non-empty all-digit character list, `none` otherwise. -/
def digitsVal (cs : List Char) : Option Nat :=
  if cs.isEmpty then none
  else if cs.all Char.isDigit then
    some (cs.foldl (fun a c => a * 10 + (c.toNat - 48)) 0)
  else none

/-- Python `int(s)` for a string: strip, optional sign, digits; `none` models
the `ValueError` raised on any other shape. -/
def parseIntPython (s : String) : Option Int :=
  match trimList s.toList with
  | '+' :: rest => (digitsVal rest).map Int.ofNat
  | '-' :: rest => (digitsVal rest).map (fun n => -(Int.ofNat n))
  | cs => (digitsVal cs).map Int.ofNat

/-! ### Provider map and `Record` -/

/-- `PROVIDER_MAP`, in Python dict insertion order (= iteration order). -/
def PROVIDER_MAP : List (String × String) :=
  [("sendgrid", "SendGrid"),
   ("amazonses.com", "Amazon SES"),
   ("salesforce.com", "Salesforce Marketing Cloud"),
   ("bnc.salesforce.com", "Salesforce Marketing Cloud"),
   ("front-mail", "Front"),
   ("onmicrosoft.com", "Microsoft 365 / Exchange Online"),
   ("outlook.com", "Microsoft Outlook"),
   ("gmail.com", "Gmail"),
   ("google.com", "Google Workspace"),
   ("comcast.net", "Comcast"),
   ("comcastmailservice.net", "Comcast"),
   ("activecampaign.com", "ActiveCampaign"),
   ("activehosted.com", "ActiveCampaign"),
   ("mailchimp.com", "Mailchimp"),
   ("yahoo.com", "Yahoo")]

/-- One parsed row, mirroring the dict appended by `parse_dmarc_xml`
(`xml_path` is omitted: it is only a back-reference to the file). -/
structure Record where
  reporting_domain : String
  report_id : String
  date_begin : String
  date_end : String
  domain : String
  source_ip : String
  count : Int
  disposition : String
  header_from : String
  envelope_from : String
  auth_dkim_domain : String
  auth_spf_domain : String
deriving DecidableEq

/-! ### Provider inference (`detect_provider_and_domain`) -/

/-- Raw candidate strings in the fixed precedence order of the code. -/
def rawCandidates (r : Record) : List String :=
  [r.auth_dkim_domain, r.auth_spf_domain, r.envelope_from, r.header_from]

/-- `cand_domains`: keep truthy (non-empty) raw candidates, then
`domain_part` each. -/
def cand_domains (r : Record) : List String :=
  (rawCandidates r).filter (fun c => c ≠ "") |>.map domain_part

/-- Inner loop of the classifier: first fingerprint (in table order) that is
a substring of the candidate domain, with its provider name. -/
def tableHit (cd : String) : Option String :=
  (PROVIDER_MAP.find? (fun p => hasSubstr cd p.1)).map (fun p => p.2)

/-- Outer loop of the classifier: first candidate with a table hit. -/
def scanCands : List String → Option (String × String)
  | [] => none
  | cd :: t =>
    match tableHit cd with
    | some name => some (name, cd)
    | none => scanCands t

/-- `detect_provider_and_domain(row)`. The Python `None` provider is
modelled as `none`. -/
def detect_provider_and_domain (r : Record) : Option String × String :=
  match scanCands (cand_domains r) with
  | some (name, cd) => (some name, cd)
  | none =>
    match (cand_domains r).find? (fun cd => cd ≠ "" && cd ≠ domain_part r.domain) with
    | some cd => (none, cd)
    | none => (none, domain_part r.domain)

/-! ### Characterization lemmas for the classifier loops -/

theorem find?_eq_some_split {α : Type _} (p : α → Bool) (l : List α) (a : α) :
    l.find? p = some a ↔
      ∃ pre post, l = pre ++ a :: post ∧ (∀ x ∈ pre, p x = false) ∧ p a = true := by
  induction l with
  | nil => simp
  | cons b t ih =>
    cases hb : p b with
    | true =>
      simp only [List.find?, hb]
      constructor
      · intro h
        injection h with h
        exact ⟨[], t, by simp [h], by simp, h ▸ hb⟩
      · rintro ⟨pre, post, hdec, hpre, hpa⟩
        cases pre with
        | nil =>
          simp only [List.nil_append, List.cons.injEq] at hdec
          rw [hdec.1]
        | cons x pre' =>
          simp only [List.cons_append, List.cons.injEq] at hdec
          have hx := hpre x (by simp)
          rw [← hdec.1] at hx
          rw [hb] at hx
          exact absurd hx (by simp)
    | false =>
      simp only [List.find?, hb]
      rw [ih]
      constructor
      · rintro ⟨pre, post, hdec, hpre, hpa⟩
        refine ⟨b :: pre, post, by simp [hdec], ?_, hpa⟩
        intro x hx
        rcases List.mem_cons.1 hx with hx | hx
        · rw [hx]; exact hb
        · exact hpre x hx
      · rintro ⟨pre, post, hdec, hpre, hpa⟩
        cases pre with
        | nil =>
          simp only [List.nil_append, List.cons.injEq] at hdec
          rw [hdec.1] at hb
          rw [hpa] at hb
          exact absurd hb (by simp)
        | cons x pre' =>
          simp only [List.cons_append, List.cons.injEq] at hdec
          exact ⟨pre', post, hdec.2, fun y hy => hpre y (by simp [hy]), hpa⟩

theorem find?_eq_none_all {α : Type _} (p : α → Bool) (l : List α) :
    l.find? p = none ↔ ∀ x ∈ l, p x = false := by
  induction l with
  | nil => simp
  | cons b t ih =>
    cases hb : p b with
    | true => simp [List.find?, hb]
    | false => simp [List.find?, hb, ih]

theorem tableHit_eq_some (cd n : String) :
    tableHit cd = some n ↔
      ∃ tpre tpost k, PROVIDER_MAP = tpre ++ (k, n) :: tpost ∧
        hasSubstr cd k = true ∧ ∀ q ∈ tpre, hasSubstr cd q.1 = false := by
  unfold tableHit
  rw [Option.map_eq_some']
  constructor
  · rintro ⟨q, hq, hq2⟩
    obtain ⟨tpre, tpost, hdec, hpre, hhit⟩ := (find?_eq_some_split _ _ _).1 hq
    exact ⟨tpre, tpost, q.1, by rw [← hq2]; simpa using hdec, hhit, hpre⟩
  · rintro ⟨tpre, tpost, k, hdec, hhit, hpre⟩
    exact ⟨(k, n), (find?_eq_some_split _ _ _).2 ⟨tpre, tpost, hdec, hpre, hhit⟩, rfl⟩

theorem tableHit_eq_none (cd : String) :
    tableHit cd = none ↔ ∀ q ∈ PROVIDER_MAP, hasSubstr cd q.1 = false := by
  unfold tableHit
  rw [Option.map_eq_none']
  exact find?_eq_none_all _ _

theorem scanCands_eq_none (l : List String) :
    scanCands l = none ↔ ∀ c ∈ l, tableHit c = none := by
  induction l with
  | nil => simp [scanCands]
  | cons cd t ih =>
    cases hc : tableHit cd with
    | none => simp [scanCands, hc, ih]
    | some n => simp [scanCands, hc]

theorem scanCands_eq_some (l : List String) (n cd : String) :
    scanCands l = some (n, cd) ↔
      ∃ pre post, l = pre ++ cd :: post ∧ (∀ c ∈ pre, tableHit c = none) ∧
        tableHit cd = some n := by
  induction l with
  | nil => simp [scanCands]
  | cons b t ih =>
    cases hb : tableHit b with
    | some m =>
      simp only [scanCands, hb]
      constructor
      · intro h
        injection h with h
        obtain ⟨h1, h2⟩ := Prod.mk.injEq .. ▸ h
        refine ⟨[], t, by simp [← h2], by simp, ?_⟩
        rw [h2] at hb
        rw [hb, h1]
      · rintro ⟨pre, post, hdec, hpre, hhit⟩
        cases pre with
        | nil =>
          simp only [List.nil_append, List.cons.injEq] at hdec
          rw [hdec.1] at hb
          rw [hhit] at hb
          injection hb with hb
          rw [hdec.1, hb]
        | cons x pre' =>
          simp only [List.cons_append, List.cons.injEq] at hdec
          have hx := hpre x (by simp)
          rw [← hdec.1, hb] at hx
          exact absurd hx (by simp)
    | none =>
      simp only [scanCands, hb]
      rw [ih]
      constructor
      · rintro ⟨pre, post, hdec, hpre, hhit⟩
        refine ⟨b :: pre, post, by simp [hdec], ?_, hhit⟩
        intro c hc
        rcases List.mem_cons.1 hc with hc | hc
        · rw [hc]; exact hb
        · exact hpre c hc
      · rintro ⟨pre, post, hdec, hpre, hhit⟩
        cases pre with
        | nil =>
          simp only [List.nil_append, List.cons.injEq] at hdec
          rw [hdec.1] at hb
          rw [hhit] at hb
          exact absurd hb (by simp)
        | cons x pre' =>
          simp only [List.cons_append, List.cons.injEq] at hdec
          exact ⟨pre', post, hdec.2, fun c hc => hpre c (by simp [hc]), hhit⟩

theorem detect_eq_pair_iff_scan (r : Record) (name cd : String) :
    detect_provider_and_domain r = (some name, cd) ↔
      scanCands (cand_domains r) = some (name, cd) := by
  unfold detect_provider_and_domain
  cases hs : scanCands (cand_domains r) with
  | none =>
    cases hf : (cand_domains r).find? (fun c => c ≠ "" && c ≠ domain_part r.domain) with
    | none => simp
    | some c => simp
  | some p =>
    obtain ⟨n, c⟩ := p
    simp [Prod.ext_iff]

/-- A convenient record with every field empty and count zero. -/
def blankRecord : Record :=
  { reporting_domain := "", report_id := "", date_begin := "", date_end := "",
    domain := "", source_ip := "", count := 0, disposition := "",
    header_from := "", envelope_from := "", auth_dkim_domain := "",
    auth_spf_domain := "" }

/-- Claim C1: the classifier scans the candidate domains (authenticated-DKIM,
authenticated-SPF, envelope-from, header-from, empty raw candidates skipped,
each lowercased/trimmed by `domain_part`) in precedence order, and for each
candidate scans the fingerprint table in its iteration order; a fingerprint
matches when it occurs as a substring of the candidate; the first match
determines the returned provider name and matched domain. Stated as an exact
characterization of when `detect_provider_and_domain` returns a provider. -/
theorem detect_provider_first_match_iff (r : Record) (name cd : String) :
    detect_provider_and_domain r = (some name, cd) ↔
      ∃ pre post, cand_domains r = pre ++ cd :: post ∧
        (∀ c ∈ pre, ∀ q ∈ PROVIDER_MAP, hasSubstr c q.1 = false) ∧
        ∃ tpre tpost k, PROVIDER_MAP = tpre ++ (k, name) :: tpost ∧
          hasSubstr cd k = true ∧ ∀ q ∈ tpre, hasSubstr cd q.1 = false := by
  rw [detect_eq_pair_iff_scan, scanCands_eq_some]
  constructor
  · rintro ⟨pre, post, hdec, hpre, hhit⟩
    exact ⟨pre, post, hdec, fun c hc => (tableHit_eq_none c).1 (hpre c hc),
      (tableHit_eq_some cd name).1 hhit⟩
  · rintro ⟨pre, post, hdec, hpre, hhit⟩
    exact ⟨pre, post, hdec, fun c hc => (tableHit_eq_none c).2 (hpre c hc),
      (tableHit_eq_some cd name).2 hhit⟩

/-- Claim C2: when no fingerprint matches any candidate domain, the classifier
returns "no match" (modelled as `none`) paired with the first candidate that
is non-empty and differs from the record's own policy domain (as normalized by
`domain_part`); when no such candidate exists it returns "no match" paired
with the record's own (normalized) policy domain. -/
theorem detect_provider_no_match_fallback (r : Record)
    (h : ∀ c ∈ cand_domains r, ∀ q ∈ PROVIDER_MAP, hasSubstr c q.1 = false) :
    (detect_provider_and_domain r).1 = none ∧
      ((∃ pre post,
          cand_domains r = pre ++ (detect_provider_and_domain r).2 :: post ∧
          (detect_provider_and_domain r).2 ≠ "" ∧
          (detect_provider_and_domain r).2 ≠ domain_part r.domain ∧
          (∀ c ∈ pre, c = "" ∨ c = domain_part r.domain)) ∨
        ((∀ c ∈ cand_domains r, c = "" ∨ c = domain_part r.domain) ∧
          (detect_provider_and_domain r).2 = domain_part r.domain)) := by
  have hscan : scanCands (cand_domains r) = none :=
    (scanCands_eq_none _).2 fun c hc => (tableHit_eq_none c).2 (h c hc)
  have hpred : ∀ c : String,
      ((c ≠ "" && c ≠ domain_part r.domain) = false) ↔
        (c = "" ∨ c = domain_part r.domain) := by
    intro c
    constructor
    · intro hc
      by_cases h1 : c = ""
      · exact Or.inl h1
      · by_cases h2 : c = domain_part r.domain
        · exact Or.inr h2
        · simp [h1, h2] at hc
    · intro hc
      rcases hc with hc | hc <;> simp [hc]
  cases hf : (cand_domains r).find? (fun c => c ≠ "" && c ≠ domain_part r.domain) with
  | some c =>
    have hres : detect_provider_and_domain r = (none, c) := by
      unfold detect_provider_and_domain
      rw [hscan, hf]
    obtain ⟨pre, post, hdec, hpre, hpa⟩ := (find?_eq_some_split _ _ _).1 hf
    have hpa2 : c ≠ "" ∧ c ≠ domain_part r.domain := by
      simpa using hpa
    refine ⟨by rw [hres], Or.inl ⟨pre, post, ?_, ?_, ?_, ?_⟩⟩
    · rw [hres]; exact hdec
    · rw [hres]; exact hpa2.1
    · rw [hres]; exact hpa2.2
    · intro x hx
      exact (hpred x).1 (hpre x hx)
  | none =>
    have hres : detect_provider_and_domain r = (none, domain_part r.domain) := by
      unfold detect_provider_and_domain
      rw [hscan, hf]
    refine ⟨by rw [hres], Or.inr ⟨?_, by rw [hres]⟩⟩
    intro c hc
    exact (hpred c).1 (((find?_eq_none_all _ _).1 hf) c hc)

/-- A record whose only candidate domain is an external domain matching no
fingerprint, with a different policy domain. -/
def recExternal : Record :=
  { blankRecord with
    domain := "mine.com"
    disposition := "reject"
    header_from := "x@ext.org"
    count := 3 }

/-- Witness for C2 at `recExternal`: the hypothesis holds concretely and the
classifier indeed falls back to (no match, "ext.org"). -/
theorem detect_provider_no_match_fallback_witness :
    (∀ c ∈ cand_domains recExternal, ∀ q ∈ PROVIDER_MAP,
        hasSubstr c q.1 = false) ∧
      ((detect_provider_and_domain recExternal).1 = none ∧
        ((∃ pre post,
            cand_domains recExternal =
              pre ++ (detect_provider_and_domain recExternal).2 :: post ∧
            (detect_provider_and_domain recExternal).2 ≠ "" ∧
            (detect_provider_and_domain recExternal).2 ≠
              domain_part recExternal.domain ∧
            (∀ c ∈ pre, c = "" ∨ c = domain_part recExternal.domain)) ∨
          ((∀ c ∈ cand_domains recExternal,
              c = "" ∨ c = domain_part recExternal.domain) ∧
            (detect_provider_and_domain recExternal).2 =
              domain_part recExternal.domain))) :=
  ⟨by decide, detect_provider_no_match_fallback recExternal (by decide)⟩

/-! ### XML document model and `parse_dmarc_xml`

The XML tree is modelled structurally: `Option` for `find`/`findtext`
results (`none` = element absent), `List` where the code may meet several
sibling elements (`findall("record")`, repeated `dkim`/`spf` blocks). -/

/-- One `dkim` or `spf` element under `auth_results`; `domain` is the text of
its first `domain` child, as `findtext` would return it. -/
structure MechNode where
  domain : Option String
deriving DecidableEq

/-- The `auth_results` element: all `dkim` and all `spf` children, in
document order (`find` takes the head). -/
structure AuthNode where
  dkim : List MechNode
  spf : List MechNode
deriving DecidableEq

/-- The `policy_evaluated` element. -/
structure PolicyEvalNode where
  disposition : Option String
deriving DecidableEq

/-- The `row` element of a record. -/
structure RowNode where
  source_ip : Option String
  count : Option String
  policy_evaluated : Option PolicyEvalNode
deriving DecidableEq

/-- The `identifiers` element of a record. -/
structure IdentNode where
  header_from : Option String
  envelope_from : Option String
deriving DecidableEq

/-- One `record` element. -/
structure RecordNode where
  row : Option RowNode
  identifiers : Option IdentNode
  auth : Option AuthNode
deriving DecidableEq

/-- The `date_range` element of `report_metadata`. -/
structure DateRangeNode where
  range_begin : Option String
  range_end : Option String
deriving DecidableEq

/-- The `report_metadata` element. -/
structure MetaNode where
  org_name : Option String
  report_id : Option String
  date_range : Option DateRangeNode
deriving DecidableEq

/-- The `policy_published` element. -/
structure PolicyPubNode where
  pub_domain : Option String
deriving DecidableEq

/-- A whole report document (root element). -/
structure ReportDoc where
  report_metadata : Option MetaNode
  policy_published : Option PolicyPubNode
  records : List RecordNode
deriving DecidableEq

/-- Document-level fields shared by every emitted record. -/
structure DocMeta where
  org_name : String
  report_id : String
  date_begin : String
  date_end : String
  policy_domain : String
deriving DecidableEq

/-- Document-level field extraction at the top of `parse_dmarc_xml`. -/
def docMetaOf (d : ReportDoc) : DocMeta :=
  { org_name := match d.report_metadata with
      | some m => safe_txt (some (m.org_name.getD ""))
      | none => ""
    report_id := match d.report_metadata with
      | some m => safe_txt (some (m.report_id.getD ""))
      | none => ""
    date_begin := match d.report_metadata.bind (fun m => m.date_range) with
      | some dr => safe_txt (some (dr.range_begin.getD ""))
      | none => ""
    date_end := match d.report_metadata.bind (fun m => m.date_range) with
      | some dr => safe_txt (some (dr.range_end.getD ""))
      | none => ""
    policy_domain := match d.policy_published with
      | some p => safe_txt (some (p.pub_domain.getD ""))
      | none => "" }

/-- `safe_txt(elem.findtext(name, default=""))` then first element of a
mechanism list: the per-mechanism domain the code keeps. -/
def firstMechDomain (ms : Option (List MechNode)) : String :=
  match ms with
  | none => ""
  | some l =>
    match l.head? with
    | none => ""
    | some mech => safe_txt (some (mech.domain.getD ""))

/-- `int(safe_txt(r.findtext("count", default="0"))) if r is not None else 0`:
`none` models the `ValueError` on a present but non-integer count text. -/
def recordCount (rec : RecordNode) : Option Int :=
  match rec.row with
  | none => some 0
  | some r => parseIntPython (safe_txt (some (r.count.getD "0")))

/-- The body of the per-record loop of `parse_dmarc_xml`. Returns `none`
when the count coercion raises; the caller models the resulting control
transfer to the document-level handler. -/
def parse_record (m : DocMeta) (rec : RecordNode) : Option Record :=
  match recordCount rec with
  | none => none
  | some c =>
    some
      { reporting_domain := m.org_name
        report_id := m.report_id
        date_begin := m.date_begin
        date_end := m.date_end
        domain := m.policy_domain
        source_ip := match rec.row with
          | some r => safe_txt r.source_ip
          | none => ""
        count := c
        disposition := match rec.row.bind (fun r => r.policy_evaluated) with
          | some pe => safe_txt pe.disposition
          | none => ""
        header_from := match rec.identifiers with
          | some i => safe_txt i.header_from
          | none => ""
        envelope_from := match rec.identifiers with
          | some i => safe_txt i.envelope_from
          | none => ""
        auth_dkim_domain := firstMechDomain (rec.auth.map (fun a => a.dkim))
        auth_spf_domain := firstMechDomain (rec.auth.map (fun a => a.spf)) }

/-- The record loop: a raising `int(...)` jumps to the document-level
`except` handler, so records already appended are kept and the failing node
and every later node are dropped. -/
def parse_records (m : DocMeta) : List RecordNode → List Record
  | [] => []
  | n :: t =>
    match parse_record m n with
    | some r => r :: parse_records m t
    | none => []

/-- `parse_dmarc_xml`, per document (the outer `except` never reraises). -/
def parse_dmarc_xml (d : ReportDoc) : List Record :=
  parse_records (docMetaOf d) d.records

/-! ### Claims about the parser (C3, C4, C9) -/

theorem parse_record_of_count (m : DocMeta) (rec : RecordNode) (c : Int)
    (h : recordCount rec = some c) :
    ∃ r, parse_record m rec = some r ∧ r.count = c := by
  unfold parse_record
  rw [h]
  exact ⟨_, rfl, rfl⟩

theorem parse_record_of_count_none (m : DocMeta) (rec : RecordNode)
    (h : recordCount rec = none) : parse_record m rec = none := by
  unfold parse_record
  rw [h]

/-- A minimal row carrying only a count text. -/
def rowWithCount (s : Option String) : RowNode :=
  { source_ip := none, count := s, policy_evaluated := none }

/-- A minimal record node carrying only a count text. -/
def nodeWithCount (s : Option String) : RecordNode :=
  { row := some (rowWithCount s), identifiers := none, auth := none }

/-- Empty document-level metadata. -/
def meta0 : DocMeta :=
  { org_name := "", report_id := "", date_begin := "", date_end := ""
    policy_domain := "" }

/-- A document with a malformed count on its first record node and a valid
second record node. -/
def docBadCount : ReportDoc :=
  { report_metadata := none, policy_published := none
    records := [nodeWithCount (some "abc"), nodeWithCount (some "5")] }

/-- Claim C3 counterexample: on a document whose first record node has the
non-integer count text "abc" (second node valid, count "5"), the parser
emits NO records at all — the bad record is not emitted with count 0 and the
remaining record node is not parsed, contradicting the claim. -/
theorem parse_count_malformed_counterexample :
    parseIntPython (safe_txt (some "abc")) = none ∧
      docBadCount.records.length = 2 ∧
      parse_dmarc_xml docBadCount = [] := by decide

/-- Claim C3 amended: a record node whose count element is ABSENT is emitted
with message_count 0 (the `"0"` default substitutes); but a record node whose
count text is present and not a valid integer raises inside the per-document
handler: record nodes before it are still emitted, while it and every later
record node of the same document are dropped. The failure never propagates
to the caller (the document-level handler absorbs it). -/
theorem parse_count_default_and_abort (m : DocMeta) (rec : RecordNode)
    (row : RowNode) (hrow : rec.row = some row) :
    (row.count = none → ∃ r, parse_record m rec = some r ∧ r.count = 0) ∧
      (parseIntPython (safe_txt (some (row.count.getD "0"))) = none →
        ∀ pre post, (∀ n ∈ pre, (parse_record m n).isSome = true) →
          parse_records m (pre ++ rec :: post) =
            pre.filterMap (parse_record m)) := by
  constructor
  · intro hc
    apply parse_record_of_count
    unfold recordCount
    rw [hrow]
    show parseIntPython (safe_txt (some (row.count.getD "0"))) = some 0
    rw [hc]
    decide
  · intro hbad pre post hpre
    have hrec : parse_record m rec = none := by
      apply parse_record_of_count_none
      unfold recordCount
      rw [hrow]
      exact hbad
    induction pre with
    | nil =>
      simp only [List.nil_append, List.filterMap_nil]
      unfold parse_records
      rw [hrec]
    | cons n t ih =>
      have hn : (parse_record m n).isSome = true := hpre n (by simp)
      obtain ⟨r, hr⟩ := Option.isSome_iff_exists.1 hn
      simp only [List.cons_append, List.filterMap_cons, hr]
      unfold parse_records
      rw [hr]
      rw [ih fun x hx => hpre x (by simp [hx])]

/-- Witness for the amended C3: with a valid node before and after a
malformed one, exactly the earlier node's record is emitted. -/
theorem parse_count_default_and_abort_witness :
    parse_records meta0
        ([nodeWithCount (some "5")] ++
          nodeWithCount (some "abc") :: [nodeWithCount (some "7")]) =
      [nodeWithCount (some "5")].filterMap (parse_record meta0) :=
  (parse_count_default_and_abort meta0 (nodeWithCount (some "abc"))
      (rowWithCount (some "abc")) rfl).2 (by decide)
    [nodeWithCount (some "5")] [nodeWithCount (some "7")] (by decide)

/-- The full deduplicated list of DKIM-authenticating domains a record node
lists (formalizing what claim C4 says the parser collects). -/
def listedDkimDomains (rec : RecordNode) : List String :=
  let raw : List String :=
    match rec.auth with
    | none => []
    | some a => a.dkim.filterMap (fun mech => mech.domain)
  (raw.map (fun s => safe_txt (some s))).dedup

/-- The DKIM-domain information actually carried by an emitted `Record`. -/
def recordDkimDomains (r : Record) : List String :=
  if r.auth_dkim_domain = "" then [] else [r.auth_dkim_domain]

/-- A record node whose authentication results list two DKIM domains. -/
def nodeTwoDkim : RecordNode :=
  { row := none, identifiers := none
    auth := some { dkim := [{ domain := some "a.com" }, { domain := some "b.com" }]
                   spf := [] } }

/-- Claim C4 counterexample: a record node listing the two DKIM domains
"a.com" and "b.com" is emitted carrying only "a.com" — not the full
deduplicated set, contradicting the claim. -/
theorem parse_multi_dkim_counterexample :
    listedDkimDomains nodeTwoDkim = ["a.com", "b.com"] ∧
      (parse_record meta0 nodeTwoDkim).map recordDkimDomains = some ["a.com"] ∧
      ¬((parse_record meta0 nodeTwoDkim).map recordDkimDomains =
          some (listedDkimDomains nodeTwoDkim)) := by decide

/-- Claim C4 amended: for each mechanism the parser keeps only the FIRST
listed element's domain (`ar.find` returns the first `dkim`/`spf` child);
any further authenticating domains for the same mechanism are dropped. -/
theorem parse_keeps_first_mech_domain (m : DocMeta) (rec : RecordNode)
    (r : Record) (h : parse_record m rec = some r) :
    r.auth_dkim_domain = firstMechDomain (rec.auth.map (fun a => a.dkim)) ∧
      r.auth_spf_domain = firstMechDomain (rec.auth.map (fun a => a.spf)) := by
  unfold parse_record at h
  cases hc : recordCount rec with
  | none => rw [hc] at h; exact absurd h (by simp)
  | some c =>
    rw [hc] at h
    injection h with h
    rw [← h]
    exact ⟨rfl, rfl⟩

/-- The record emitted for `nodeTwoDkim`. -/
def recFirstDkim : Record :=
  { blankRecord with auth_dkim_domain := "a.com" }

/-- Witness for the amended C4 at `nodeTwoDkim`. -/
theorem parse_keeps_first_mech_domain_witness :
    parse_record meta0 nodeTwoDkim = some recFirstDkim ∧
      (recFirstDkim.auth_dkim_domain =
          firstMechDomain (nodeTwoDkim.auth.map (fun a => a.dkim)) ∧
        recFirstDkim.auth_spf_domain =
          firstMechDomain (nodeTwoDkim.auth.map (fun a => a.spf))) :=
  ⟨by decide,
    parse_keeps_first_mech_domain meta0 nodeTwoDkim recFirstDkim (by decide)⟩

/-- A record node whose count text is the negative integer "-5". -/
def nodeNegCount : RecordNode := nodeWithCount (some "-5")

/-- The record emitted for `nodeNegCount`. -/
def recNeg : Record := { blankRecord with count := -5 }

/-- Claim C9 counterexample: a record node with count text "-5" is emitted
with message_count -5 < 0, contradicting the claimed invariant
`message_count >= 0`. -/
theorem parse_negative_count_counterexample :
    parse_record meta0 nodeNegCount = some recNeg ∧ recNeg.count < 0 := by
  decide

/-- Claim C9 amended: provided every record node's count text parses to a
non-negative integer (an absent count parses to 0 via the `"0"` default),
every emitted record has `message_count ≥ 0` and summing the counts yields a
non-negative total; in particular a record node with a missing count element
is emitted with message_count 0. -/
theorem parse_records_nonneg (m : DocMeta) (ns : List RecordNode)
    (h : ∀ n ∈ ns, 0 ≤ (recordCount n).getD 0) :
    (∀ r ∈ parse_records m ns, 0 ≤ r.count) ∧
      0 ≤ ((parse_records m ns).map (fun r => r.count)).sum ∧
      (∀ n ∈ ns, ∀ row, n.row = some row → row.count = none →
        ∃ r, parse_record m n = some r ∧ r.count = 0) := by
  refine ⟨?_, ?_, ?_⟩
  · induction ns with
    | nil => intro r hr; simp [parse_records] at hr
    | cons n t ih =>
      intro r hr
      cases hc : recordCount n with
      | none =>
        unfold parse_records at hr
        rw [parse_record_of_count_none m n hc] at hr
        simp at hr
      | some c =>
        obtain ⟨r0, hr0, hr0c⟩ := parse_record_of_count m n c hc
        unfold parse_records at hr
        rw [hr0] at hr
        rcases List.mem_cons.1 hr with hr | hr
        · rw [hr, hr0c]
          have := h n (by simp)
          rw [hc] at this
          exact this
        · exact ih (fun x hx => h x (by simp [hx])) r hr
  · induction ns with
    | nil => simp [parse_records]
    | cons n t ih =>
      cases hc : recordCount n with
      | none =>
        unfold parse_records
        rw [parse_record_of_count_none m n hc]
        simp
      | some c =>
        obtain ⟨r0, hr0, hr0c⟩ := parse_record_of_count m n c hc
        unfold parse_records
        rw [hr0]
        simp only [List.map_cons, List.sum_cons]
        have h1 : (0 : Int) ≤ c := by
          have := h n (by simp)
          rw [hc] at this
          exact this
        have h2 := ih fun x hx => h x (by simp [hx])
        rw [hr0c]
        omega
  · intro n hn row hrow hcnt
    apply parse_record_of_count
    unfold recordCount
    rw [hrow]
    show parseIntPython (safe_txt (some (row.count.getD "0"))) = some 0
    rw [hcnt]
    decide

/-- Witness for the amended C9: a missing count and a count of "7". -/
theorem parse_records_nonneg_witness :
    (∀ n ∈ [nodeWithCount none, nodeWithCount (some "7")],
        0 ≤ (recordCount n).getD 0) ∧
      ((∀ r ∈ parse_records meta0 [nodeWithCount none, nodeWithCount (some "7")],
          0 ≤ r.count) ∧
        0 ≤ ((parse_records meta0
            [nodeWithCount none, nodeWithCount (some "7")]).map
              (fun r => r.count)).sum ∧
        (∀ n ∈ [nodeWithCount none, nodeWithCount (some "7")],
          ∀ row, n.row = some row → row.count = none →
            ∃ r, parse_record meta0 n = some r ∧ r.count = 0)) :=
  ⟨by decide,
    parse_records_nonneg meta0 [nodeWithCount none, nodeWithCount (some "7")]
      (by decide)⟩

/-! ### Aggregation: pass/fail split and percentages (C5)

Python `round(x, 1)` rounds half to even; it is modelled exactly over `ℚ`
(the spec's approximate-sum property is robust to the float realization). -/

/-- `passes`: sum of `count` where `disposition == "none"`. -/
def passes (l : List Record) : Int :=
  ((l.filter (fun r => r.disposition = "none")).map (fun r => r.count)).sum

/-- `fails`: sum of `count` where `disposition != "none"`. -/
def fails (l : List Record) : Int :=
  ((l.filter (fun r => r.disposition ≠ "none")).map (fun r => r.count)).sum

/-- `total_msgs = passes + fails`. -/
def total_msgs (l : List Record) : Int := passes l + fails l

/-- Round half to even, as Python's builtin `round` does. -/
def roundHalfEven (x : ℚ) : ℤ :=
  if x - ((⌊x⌋ : ℤ) : ℚ) < 1/2 then ⌊x⌋
  else if 1/2 < x - ((⌊x⌋ : ℤ) : ℚ) then ⌊x⌋ + 1
  else if ⌊x⌋ % 2 = 0 then ⌊x⌋ else ⌊x⌋ + 1

/-- Python `round(x, 1)` over `ℚ`. -/
def round1 (x : ℚ) : ℚ := ((roundHalfEven (x * 10) : ℚ)) / 10

/-- `pass_pct = round(passes / total_msgs * 100, 1) if total_msgs else 0.0`. -/
def pass_pct (l : List Record) : ℚ :=
  if total_msgs l = 0 then 0
  else round1 ((passes l : ℚ) / (total_msgs l : ℚ) * 100)

/-- `fail_pct = round(fails / total_msgs * 100, 1) if total_msgs else 0.0`. -/
def fail_pct (l : List Record) : ℚ :=
  if total_msgs l = 0 then 0
  else round1 ((fails l : ℚ) / (total_msgs l : ℚ) * 100)

theorem abs_roundHalfEven_sub (x : ℚ) : |((roundHalfEven x : ℤ) : ℚ) - x| ≤ 1/2 := by
  have hfl : ((⌊x⌋ : ℤ) : ℚ) ≤ x := Int.floor_le x
  have hfl2 : x < ((⌊x⌋ : ℤ) : ℚ) + 1 := Int.lt_floor_add_one x
  unfold roundHalfEven
  split_ifs with h1 h2 h3
  · rw [abs_le]
    constructor <;> linarith
  · push_cast
    rw [abs_le]
    constructor <;> linarith
  · have hr : x - ((⌊x⌋ : ℤ) : ℚ) = 1/2 := le_antisymm (not_lt.1 h2) (not_lt.1 h1)
    rw [abs_le]
    constructor <;> linarith
  · have hr : x - ((⌊x⌋ : ℤ) : ℚ) = 1/2 := le_antisymm (not_lt.1 h2) (not_lt.1 h1)
    push_cast
    rw [abs_le]
    constructor <;> linarith

/-- Claim C5: `passes` sums message counts of records whose disposition is
exactly "none" and `fails` sums the counts of every other record (so the two
partition the total volume); both percentages are 0 when the total is 0; and
whenever the total is nonzero the rounded percentages sum to 100 up to the
rounding slack of one tenth. -/
theorem pass_fail_split_and_percentages (l : List Record) :
    passes l =
        ((l.filter (fun r => r.disposition = "none")).map (fun r => r.count)).sum ∧
      fails l =
        ((l.filter (fun r => r.disposition ≠ "none")).map (fun r => r.count)).sum ∧
      passes l + fails l = (l.map (fun r => r.count)).sum ∧
      (total_msgs l = 0 → pass_pct l = 0 ∧ fail_pct l = 0) ∧
      (total_msgs l ≠ 0 → |pass_pct l + fail_pct l - 100| ≤ 1/10) := by
  refine ⟨rfl, rfl, ?_, ?_, ?_⟩
  · induction l with
    | nil => rfl
    | cons r t ih =>
      unfold passes fails at ih ⊢
      rw [List.filter_cons, List.filter_cons, List.map_cons, List.sum_cons]
      by_cases hd : r.disposition = "none"
      · rw [if_pos (by simp [hd]), if_neg (by simp [hd])]
        simp only [List.map_cons, List.sum_cons]
        omega
      · rw [if_neg (by simp [hd]), if_pos (by simp [hd])]
        simp only [List.map_cons, List.sum_cons]
        omega
  · intro h0
    simp [pass_pct, fail_pct, h0]
  · intro ht
    have htQ : ((total_msgs l : ℤ) : ℚ) ≠ 0 := Int.cast_ne_zero.2 ht
    have hsplit : ((total_msgs l : ℤ) : ℚ) = (passes l : ℚ) + (fails l : ℚ) := by
      unfold total_msgs
      push_cast
      ring
    have hab :
        (passes l : ℚ) / (total_msgs l : ℚ) * 100 * 10 +
          (fails l : ℚ) / (total_msgs l : ℚ) * 100 * 10 = 1000 := by
      field_simp
      linarith [hsplit]
    have h1 := abs_roundHalfEven_sub ((passes l : ℚ) / (total_msgs l : ℚ) * 100 * 10)
    have h2 := abs_roundHalfEven_sub ((fails l : ℚ) / (total_msgs l : ℚ) * 100 * 10)
    have hpp : pass_pct l =
        ((roundHalfEven ((passes l : ℚ) / (total_msgs l : ℚ) * 100 * 10) : ℤ) : ℚ) / 10 := by
      simp [pass_pct, round1, ht]
    have hfp : fail_pct l =
        ((roundHalfEven ((fails l : ℚ) / (total_msgs l : ℚ) * 100 * 10) : ℤ) : ℚ) / 10 := by
      simp [fail_pct, round1, ht]
    rw [hpp, hfp]
    rw [abs_le] at h1 h2 ⊢
    constructor <;> [linarith; linarith]

/-- Two records: one passing 10 messages, one rejected with 5. -/
def recPass10 : Record :=
  { blankRecord with
    disposition := "none"
    count := 10 }

/-- A rejected record with 5 messages. -/
def recReject5 : Record :=
  { blankRecord with
    disposition := "reject"
    count := 5 }

/-- Witness for C5 on a concrete two-record collection with nonzero total. -/
theorem pass_fail_split_and_percentages_witness :
    total_msgs [recPass10, recReject5] ≠ 0 ∧
      |pass_pct [recPass10, recReject5] + fail_pct [recPass10, recReject5] - 100| ≤
        1/10 :=
  ⟨by decide,
    (pass_fail_split_and_percentages [recPass10, recReject5]).2.2.2.2 (by decide)⟩

/-! ### Dates, timestamps and the date-range filter (C6, C10)

Datetimes are Unix seconds. `convert_unix_to_date` returns a formatted
string or `""`; composing it with `pd.to_datetime(..., errors="coerce")`
yields a datetime or `NaT`. The composition is modelled as `Option Int`:
`some` seconds for a valid value, `none` for `""`/`NaT`. The first range
guard is Python `datetime`'s year range, the second the nanosecond range of
pandas timestamps. -/

/-- `convert_unix_to_date(ts)`: `some` seconds on success, `none` for the
`""` returned when `int(ts)` or `utcfromtimestamp` raises. -/
def convert_unix_to_date (ts : String) : Option Int :=
  (parseIntPython ts).bind fun n =>
    if -62135596800 ≤ n ∧ n ≤ 253402300799 then some n else none

/-- `pd.to_datetime(..., errors="coerce", utc=True)` on the formatted
string: `none` is `NaT` (empty string, or out of the ns-resolution range). -/
def to_datetime_coerce (o : Option Int) : Option Int :=
  o.bind fun n => if -9223372036 ≤ n ∧ n ≤ 9223372036 then some n else none

/-- The `date_begin_dt` / `date_end_dt` column value for a raw field. -/
def toDt (s : String) : Option Int := to_datetime_coerce (convert_unix_to_date s)

/-- `.date()` then `pd.Timestamp(...).tz_localize("UTC")`: midnight (UTC) of
the calendar day containing the instant. -/
def dateFloor (t : Int) : Int := t - t % 86400

/-- The row mask `(date_begin_dt >= start_ts) & (date_end_dt <= end_ts)`;
comparisons against `NaT` are false. -/
def included (r : Record) (startTs endTs : Int) : Bool :=
  match toDt r.date_begin, toDt r.date_end with
  | some b, some e => decide (startTs ≤ b) && decide (e ≤ endTs)
  | _, _ => false

/-- pandas `Series.min` (NaT entries already dropped by `filterMap`). -/
def seriesMin : List Int → Option Int
  | [] => none
  | x :: xs => some (xs.foldl min x)

/-- pandas `Series.max`. -/
def seriesMax : List Int → Option Int
  | [] => none
  | x :: xs => some (xs.foldl max x)

/-- All valid `date_begin_dt` values of a collection. -/
def beginDts (l : List Record) : List Int :=
  l.filterMap fun r => toDt r.date_begin

/-- All valid `date_end_dt` values of a collection. -/
def endDts (l : List Record) : List Int :=
  l.filterMap fun r => toDt r.date_end

/-- `default_start = pd.to_datetime(df["date_begin_dt"].min()).date()`, as a
midnight timestamp. -/
def default_start (l : List Record) : Option Int :=
  (seriesMin (beginDts l)).map dateFloor

/-- `default_end = pd.to_datetime(df["date_end_dt"].max()).date()`, as a
midnight timestamp. -/
def default_end (l : List Record) : Option Int :=
  (seriesMax (endDts l)).map dateFloor

theorem foldl_min_le (xs : List Int) (a : Int) :
    xs.foldl min a ≤ a ∧ ∀ x ∈ xs, xs.foldl min a ≤ x := by
  induction xs generalizing a with
  | nil => exact ⟨le_refl a, by simp⟩
  | cons y ys ih =>
    refine ⟨?_, ?_⟩
    · exact le_trans (ih (min a y)).1 (min_le_left a y)
    · intro x hx
      rcases List.mem_cons.1 hx with hx | hx
      · rw [hx]
        exact le_trans (ih (min a y)).1 (min_le_right a y)
      · exact (ih (min a y)).2 x hx

theorem le_foldl_max (xs : List Int) (a : Int) :
    a ≤ xs.foldl max a ∧ ∀ x ∈ xs, x ≤ xs.foldl max a := by
  induction xs generalizing a with
  | nil => exact ⟨le_refl a, by simp⟩
  | cons y ys ih =>
    refine ⟨?_, ?_⟩
    · exact le_trans (le_max_left a y) (ih (max a y)).1
    · intro x hx
      rcases List.mem_cons.1 hx with hx | hx
      · rw [hx]
        exact le_trans (le_max_right a y) (ih (max a y)).1
      · exact (ih (max a y)).2 x hx

theorem seriesMin_le {l : List Int} {m : Int} (h : seriesMin l = some m) :
    ∀ x ∈ l, m ≤ x := by
  match l with
  | [] => simp [seriesMin] at h
  | y :: ys =>
    unfold seriesMin at h
    injection h with h
    intro x hx
    rcases List.mem_cons.1 hx with hx | hx
    · rw [hx, ← h]
      exact (foldl_min_le ys y).1
    · rw [← h]
      exact (foldl_min_le ys y).2 x hx

theorem le_seriesMax {l : List Int} {m : Int} (h : seriesMax l = some m) :
    ∀ x ∈ l, x ≤ m := by
  match l with
  | [] => simp [seriesMax] at h
  | y :: ys =>
    unfold seriesMax at h
    injection h with h
    intro x hx
    rcases List.mem_cons.1 hx with hx | hx
    · rw [hx, ← h]
      exact (le_foldl_max ys y).1
    · rw [← h]
      exact (le_foldl_max ys y).2 x hx

theorem dateFloor_le (t : Int) : dateFloor t ≤ t := by
  unfold dateFloor
  have h := Int.emod_nonneg t (by norm_num : (86400 : Int) ≠ 0)
  omega

theorem dateFloor_mono {a b : Int} (h : a ≤ b) : dateFloor a ≤ dateFloor b := by
  unfold dateFloor
  have ha := Int.ediv_add_emod a 86400
  have hb := Int.ediv_add_emod b 86400
  have hd := Int.ediv_le_ediv (by norm_num : (0 : Int) < 86400) h
  have hm : 86400 * (a / 86400) ≤ 86400 * (b / 86400) := by
    exact mul_le_mul_of_nonneg_left hd (by norm_num)
  omega

theorem dateFloor_eq_self {t : Int} (h : t % 86400 = 0) : dateFloor t = t := by
  unfold dateFloor
  omega

/-- A record whose report window is one full day: begin at midnight
2024-01-01, end at 23:59:59 the same day. -/
def recDay : Record :=
  { blankRecord with
    date_begin := "1704067200"
    date_end := "1704153599" }

/-- Claim C6 counterexample: for the one-record collection `[recDay]` the
default window is (2024-01-01, 2024-01-01), i.e. both bounds at midnight
1704067200; the record's own end timestamp 1704153599 exceeds the end bound,
so the record is NOT included under the default window — contradicting the
claim that the default window includes every record. -/
theorem date_default_window_counterexample :
    default_start [recDay] = some 1704067200 ∧
      default_end [recDay] = some 1704067200 ∧
      toDt recDay.date_begin = some 1704067200 ∧
      toDt recDay.date_end = some 1704153599 ∧
      included recDay 1704067200 1704067200 = false := by decide

/-- Claim C6 amended: the filter compares document-level timestamps against
the selected calendar dates taken as UTC midnights: a record with valid
timestamps `b`/`en` is included in window `(s2, e2)` iff `s2 ≤ b ∧ en ≤ e2`.
Under the default window (midnight floor of the minimum begin and of the
maximum end over the collection), a record is guaranteed to be included only
when its end timestamp falls exactly on a UTC midnight; records whose end has
nonzero time-of-day on the latest day are excluded (see the counterexample). -/
theorem date_filter_default_window (l : List Record) (r : Record)
    (hr : r ∈ l) (s e b en : Int)
    (hs : default_start l = some s) (he : default_end l = some e)
    (hb : toDt r.date_begin = some b) (hen : toDt r.date_end = some en)
    (halign : en % 86400 = 0) :
    included r s e = true ∧
      (∀ s2 e2 : Int, included r s2 e2 = true ↔ s2 ≤ b ∧ en ≤ e2) := by
  have hincl : ∀ s2 e2 : Int, included r s2 e2 = true ↔ s2 ≤ b ∧ en ≤ e2 := by
    intro s2 e2
    unfold included
    rw [hb, hen]
    simp
  refine ⟨?_, hincl⟩
  rw [hincl s e]
  constructor
  · obtain ⟨m, hm, hms⟩ := Option.map_eq_some'.1 hs
    have hmem : b ∈ beginDts l := List.mem_filterMap.2 ⟨r, hr, hb⟩
    have h1 : m ≤ b := seriesMin_le hm b hmem
    calc s = dateFloor m := hms.symm
      _ ≤ m := dateFloor_le m
      _ ≤ b := h1
  · obtain ⟨m, hm, hms⟩ := Option.map_eq_some'.1 he
    have hmem : en ∈ endDts l := List.mem_filterMap.2 ⟨r, hr, hen⟩
    have h1 : en ≤ m := le_seriesMax hm en hmem
    calc en = dateFloor en := (dateFloor_eq_self halign).symm
      _ ≤ dateFloor m := dateFloor_mono h1
      _ = e := hms

/-- A record whose report window ends exactly at a UTC midnight. -/
def recAligned : Record :=
  { blankRecord with
    date_begin := "1704067200"
    date_end := "1704153600" }

/-- Witness for the amended C6 at `recAligned` (end timestamp on a midnight):
included under the default window, and the inclusion rule instantiated. -/
theorem date_filter_default_window_witness :
    included recAligned 1704067200 1704153600 = true ∧
      (included recAligned 1704067200 1704153600 = true ↔
        (1704067200 : Int) ≤ 1704067200 ∧ (1704153600 : Int) ≤ 1704153600) :=
  ⟨(date_filter_default_window [recAligned] recAligned (by decide)
      1704067200 1704153600 1704067200 1704153600
      (by decide) (by decide) (by decide) (by decide) (by decide)).1,
    (date_filter_default_window [recAligned] recAligned (by decide)
      1704067200 1704153600 1704067200 1704153600
      (by decide) (by decide) (by decide) (by decide) (by decide)).2
      1704067200 1704153600⟩

/-- Claim C10: when the document-level begin or end string does not parse as
an integer, the conversion yields "" (`none` here), the derived datetime is
missing (`NaT`), and the record is excluded from the filtered collection for
every selected window. -/
theorem invalid_timestamp_always_excluded (r : Record)
    (h : parseIntPython r.date_begin = none ∨ parseIntPython r.date_end = none) :
    (convert_unix_to_date r.date_begin = none ∨
        convert_unix_to_date r.date_end = none) ∧
      (toDt r.date_begin = none ∨ toDt r.date_end = none) ∧
      ∀ s e : Int, included r s e = false := by
  have hconv : ∀ str, parseIntPython str = none → convert_unix_to_date str = none := by
    intro str hp
    simp [convert_unix_to_date, hp]
  have hdt : ∀ str, parseIntPython str = none → toDt str = none := by
    intro str hp
    simp [toDt, to_datetime_coerce, hconv str hp]
  rcases h with h | h
  · refine ⟨Or.inl (hconv _ h), Or.inl (hdt _ h), ?_⟩
    intro s e
    unfold included
    rw [hdt _ h]
  · refine ⟨Or.inr (hconv _ h), Or.inr (hdt _ h), ?_⟩
    intro s e
    unfold included
    rw [hdt _ h]
    cases toDt r.date_begin <;> rfl

/-- A record with an unparseable begin timestamp. -/
def recBadBegin : Record :=
  { blankRecord with
    date_begin := "garbage"
    date_end := "1704067200" }

/-- Witness for C10 at `recBadBegin`, instantiated at a concrete window. -/
theorem invalid_timestamp_always_excluded_witness :
    parseIntPython recBadBegin.date_begin = none ∧
      included recBadBegin 5 1704153600 = false :=
  ⟨by decide,
    (invalid_timestamp_always_excluded recBadBegin (Or.inl (by decide))).2.2
      5 1704153600⟩

/-! ### Domain extraction semantics (C8) -/

/-- Claim C8 counterexample: `domain_part` does split on the FIRST `@` and
keep everything after it, so `"user@sub@example.com"` yields exactly the
`"sub@example.com"` the claim declares not expected (while `"a@b.com"`
yields `"b.com"` as the claim also says). -/
theorem domain_part_counterexample :
    domain_part "a@b.com" = "b.com" ∧
      domain_part "user@sub@example.com" = "sub@example.com" := by decide

theorem afterFirstAt_append (cs ds : List Char) (hcs : '@' ∉ cs) :
    afterFirstAt (cs ++ '@' :: ds) = ds := by
  induction cs with
  | nil => simp [afterFirstAt]
  | cons c t ih =>
    have hc : ¬(c = '@') := fun hc => hcs (by simp [hc])
    simp only [List.cons_append, afterFirstAt, if_neg hc]
    exact ih fun hm => hcs (by simp [hm])

/-- Claim C8 amended: domain extraction uses split-on-first-`@` semantics,
returning everything after the FIRST `@` (later `@`s included): whenever the
normalized identifier decomposes as `cs ++ '@' :: ds` with no `@` in `cs`,
the result is exactly `ds` — so `"a@b.com" → "b.com"` and
`"user@sub@example.com" → "sub@example.com"`. -/
theorem domain_part_first_at (x : String) (cs ds : List Char)
    (h : (lower_or_empty x).toList = cs ++ '@' :: ds) (hcs : '@' ∉ cs) :
    domain_part x = ⟨ds⟩ := by
  have hcon : (lower_or_empty x).toList.contains '@' = true := by
    rw [h]
    simp
  unfold domain_part
  rw [if_pos hcon, h, afterFirstAt_append cs ds hcs]

/-- Witness for the amended C8 at the claim's own multi-`@` input. -/
theorem domain_part_first_at_witness :
    domain_part "user@sub@example.com" = "sub@example.com" :=
  domain_part_first_at "user@sub@example.com" "user".toList
    "sub@example.com".toList (by decide) (by decide)

/-! ### `compute_provider_tables`: the unknown-domain ranking (C7)

The pandas pipeline on the unknown side is: restrict to failures
(`disposition != "none"`), keep rows with no provider and a matched domain
outside the collection's own policy domains, group by `matched_domain`
(group keys sorted ascending, as `groupby(sort=True)` does) summing `count`,
sort descending on the summed count, keep the top 5. pandas' final sort is
an unstable quicksort, so the relative order of groups with equal sums is
unspecified; a deterministic insertion sort stands in for it, and no theorem
below depends on the order among equal sums. -/

/-- Lexicographic-by-code-point comparison (Python string `<=`). -/
def lexLe : List Char → List Char → Bool
  | [], _ => true
  | _ :: _, [] => false
  | c :: cs, d :: ds =>
    if c.toNat < d.toNat then true
    else if d.toNat < c.toNat then false
    else lexLe cs ds

/-- `strLe a b`: Python `a <= b` on strings. -/
def strLe (a b : String) : Bool := lexLe a.toList b.toList

/-- Provider component of the classification (`None` = no match). -/
def providerName (r : Record) : Option String :=
  (detect_provider_and_domain r).1

/-- Matched-domain component of the classification. -/
def matchedDomain (r : Record) : String :=
  (detect_provider_and_domain r).2

/-- `failures = enriched[enriched["disposition"] != "none"]`. -/
def failuresOf (l : List Record) : List Record :=
  l.filter fun r => r.disposition ≠ "none"

/-- `own_domains = set(enriched["domain"].dropna().map(domain_part))`. -/
def own_domains (l : List Record) : List String :=
  l.map fun r => domain_part r.domain

/-- The rows feeding the unknown table:
`failures[failures["provider"].isna() & ~failures["matched_domain"].isin(own_domains)]`. -/
def unknownRecs (l : List Record) : List Record :=
  (failuresOf l).filter fun r =>
    (providerName r).isNone && !(decide (matchedDomain r ∈ own_domains l))

/-- Summed `count` of the unknown rows grouped under matched domain `d`. -/
def qualSum (l : List Record) (d : String) : Int :=
  (((unknownRecs l).filter fun r => matchedDomain r = d).map fun r => r.count).sum

/-- The group keys: distinct matched domains of the unknown rows, in the
ascending key order `groupby(sort=True)` produces. -/
def unknownKeys (l : List Record) : List String :=
  List.insertionSort (fun a b : String => strLe a b = true)
    (((unknownRecs l).map matchedDomain).dedup)

/-- Descending-by-summed-count order on group rows. -/
def countDescRel (a b : String × Int) : Prop := b.2 ≤ a.2

instance : DecidableRel countDescRel := fun a b =>
  inferInstanceAs (Decidable (b.2 ≤ a.2))

instance : IsTotal (String × Int) countDescRel :=
  ⟨fun a b => le_total b.2 a.2⟩

instance : IsTrans (String × Int) countDescRel :=
  ⟨fun _ _ _ h1 h2 => le_trans h2 h1⟩

/-- The unknown-domain ranking: grouped sums, sorted descending, top 5. -/
def compute_unknown (l : List Record) : List (String × Int) :=
  (List.insertionSort countDescRel
      ((unknownKeys l).map fun d => (d, qualSum l d))).take 5

/-- Claim-side predicate: `d` is an unknown-domain finding — some failing
record classified "no match" has matched domain `d`, and `d` is not among
the collection's own policy domains. -/
def isUnknownDomain (l : List Record) (d : String) : Prop :=
  ∃ r ∈ l, r.disposition ≠ "none" ∧ providerName r = none ∧
    matchedDomain r = d ∧ d ∉ own_domains l

theorem mem_unknownRecs (l : List Record) (r : Record) :
    r ∈ unknownRecs l ↔
      r ∈ l ∧ r.disposition ≠ "none" ∧ providerName r = none ∧
        matchedDomain r ∉ own_domains l := by
  unfold unknownRecs failuresOf
  rw [List.mem_filter, List.mem_filter]
  constructor
  · rintro ⟨⟨hl, hd⟩, hq⟩
    rw [Bool.and_eq_true] at hq
    refine ⟨hl, by simpa using hd, Option.isNone_iff_eq_none.1 hq.1, ?_⟩
    have := hq.2
    simp only [Bool.not_eq_true'] at this
    simpa using this
  · rintro ⟨hl, hd, hp, hm⟩
    refine ⟨⟨hl, by simpa using hd⟩, ?_⟩
    rw [Bool.and_eq_true]
    exact ⟨Option.isNone_iff_eq_none.2 hp, by simpa using hm⟩

theorem mem_unknownKeys (l : List Record) (d : String) :
    d ∈ unknownKeys l ↔ isUnknownDomain l d := by
  unfold unknownKeys
  rw [List.mem_insertionSort, List.mem_dedup, List.mem_map]
  constructor
  · rintro ⟨r, hr, hrd⟩
    obtain ⟨hl, hd, hp, hm⟩ := (mem_unknownRecs l r).1 hr
    exact ⟨r, hl, hd, hp, hrd, hrd ▸ hm⟩
  · rintro ⟨r, hl, hd, hp, hrd, hm⟩
    exact ⟨r, (mem_unknownRecs l r).2 ⟨hl, hd, hp, hrd ▸ hm⟩, hrd⟩

/-- Claim C7: the unknown-domain ranking lists exactly the unknown-domain
findings — each entry is a matched domain of some failing no-match record
outside the dataset's own policy domains, paired with the summed message
count of its group; entries are sorted descending by summed count; the table
holds the top `min 5 (number of groups)` entries; and any finding left out
can only be left out of a full table whose every entry's sum is at least the
omitted group's sum. -/
theorem unknown_ranking_spec (l : List Record) :
    (compute_unknown l).length = min 5 (unknownKeys l).length ∧
      List.Sorted countDescRel (compute_unknown l) ∧
      (∀ p ∈ compute_unknown l, isUnknownDomain l p.1 ∧ p.2 = qualSum l p.1) ∧
      (∀ d, isUnknownDomain l d → d ∉ (compute_unknown l).map Prod.fst →
        (compute_unknown l).length = 5 ∧
          ∀ p ∈ compute_unknown l, qualSum l d ≤ p.2) := by
  have hperm :=
    List.perm_insertionSort countDescRel
      ((unknownKeys l).map fun d => (d, qualSum l d))
  have hsorted :=
    List.sorted_insertionSort countDescRel
      ((unknownKeys l).map fun d => (d, qualSum l d))
  refine ⟨?_, ?_, ?_, ?_⟩
  · unfold compute_unknown
    rw [List.length_take, hperm.length_eq, List.length_map]
  · exact hsorted.sublist (List.take_sublist 5 _)
  · intro p hp
    have hp2 : p ∈ List.insertionSort countDescRel
        ((unknownKeys l).map fun d => (d, qualSum l d)) :=
      List.take_subset 5 _ hp
    rw [List.mem_insertionSort, List.mem_map] at hp2
    obtain ⟨d, hd, hdp⟩ := hp2
    rw [← hdp]
    exact ⟨(mem_unknownKeys l d).1 hd, rfl⟩
  · intro d hd hnot
    have hkey : d ∈ unknownKeys l := (mem_unknownKeys l d).2 hd
    have hsum : (d, qualSum l d) ∈ List.insertionSort countDescRel
        ((unknownKeys l).map fun d => (d, qualSum l d)) := by
      rw [List.mem_insertionSort, List.mem_map]
      exact ⟨d, hkey, rfl⟩
    have hsplit := List.take_append_drop 5 (List.insertionSort countDescRel
        ((unknownKeys l).map fun d => (d, qualSum l d)))
    rw [← hsplit] at hsum
    rcases List.mem_append.1 hsum with hmem | hmem
    · exact absurd (List.mem_map_of_mem Prod.fst hmem) hnot
    · have hlen : 5 < (List.insertionSort countDescRel
          ((unknownKeys l).map fun d => (d, qualSum l d))).length := by
        by_contra hle
        push_neg at hle
        rw [List.drop_eq_nil_of_le hle] at hmem
        simp at hmem
      constructor
      · unfold compute_unknown
        rw [List.length_take]
        omega
      · intro p hp
        have hpair := hsorted
        rw [← hsplit, List.Sorted, List.pairwise_append] at hpair
        exact hpair.2.2 p hp (d, qualSum l d) hmem

/-- A failing record classified "no match" on the external domain
"ext.org", with 7 messages, policy domain "mine.com". -/
def recUnknown7 : Record :=
  { blankRecord with
    domain := "mine.com"
    disposition := "reject"
    header_from := "x@ext.org"
    count := 7 }

/-- Witness for C7: the concrete table for `[recUnknown7]` contains the
group ("ext.org", 7), which the theorem certifies as an unknown-domain
finding with the right sum. -/
theorem unknown_ranking_spec_witness :
    ("ext.org", (7 : Int)) ∈ compute_unknown [recUnknown7] ∧
      (isUnknownDomain [recUnknown7] "ext.org" ∧
        (7 : Int) = qualSum [recUnknown7] "ext.org") :=
  ⟨by decide,
    (unknown_ranking_spec [recUnknown7]).2.2.1 ("ext.org", 7) (by decide)⟩

end Dmarc
